import Mathlib

/-!
Verification of the `deno-smart-buffer` repository (`src/mod.ts` engine and
`src/utils.ts` validators).

The `SmartBuffer` class is embedded shallowly:

* the physical backing store (`this._buff`, a Node `Buffer`) is a `List Nat`
  of byte values; its `.length` is the physical capacity `C`;
* the logical managed length, the read cursor and the write cursor are `Nat`
  fields (`length`, `readOffset`, `writeOffset`);
* JavaScript `number` arguments that undergo runtime validation
  (`checkOffsetValue` / `checkLengthValue` / truthiness tests) are embedded as
  `JSNum`: either an integer, a finite non-integer, `+Infinity`, or `NaN`;
* fallible operations return `Except Err α × SB`: the returned state is the
  state of the JavaScript object when the call returns *or throws* (a thrown
  exception does not roll back mutations already performed on `this`);
* external Node `Buffer` primitives are modelled on the byte level:
  `Buffer.prototype.copy` / `.write` truncate at the end of the target region
  and throw a `RangeError` for a negative target offset; the fixed-width
  `writeXXX`/`readXXX` accessors bounds-check `offset + byteSize` against the
  physical capacity; `Buffer.allocUnsafe` produces a region of the requested
  size (its `size` argument is truncated to an integer by `ToIndex` before the
  underlying typed array is created, so `allocUnsafe(x)` yields `⌊x⌋` bytes);
  text decoding (`Buffer.prototype.toString`) is modelled on the ASCII subset,
  where one byte is one character.

Numeric values are embedded by their byte-level content: integers carry their
mathematical value (two's complement encoding for the signed shapes), and the
32/64-bit float shapes transport the IEEE-754 bit pattern of the value, since
the codec only moves bits and never computes with them.
-/

namespace SmartBufferSpec

/-! ## Byte-region primitives (model of the Node `Buffer` collaborator) -/

/-- `bufSlice b i j` models `buff.slice(i, j)` for `0 ≤ i`, `0 ≤ j`:
the bytes at indices `[i, j)`, clamped to the region (empty if `j ≤ i`). -/
def bufSlice (b : List Nat) (i j : Nat) : List Nat :=
  (b.drop i).take (j - i)

/-- `storeWrite b o xs` overwrites the bytes of `b` starting at index `o` with
`xs`, truncating at the end of `b` (the semantics shared by `Buffer#copy` and
`Buffer#write`: at most `b.length - o` bytes are stored, `b` never grows). -/
def storeWrite (b : List Nat) (o : Nat) (xs : List Nat) : List Nat :=
  b.take o ++ xs.take (b.length - o) ++ b.drop (o + xs.length)

/-- `Buffer.allocUnsafe n`: a fresh physical region of `n` bytes.  The real
allocator leaves the contents arbitrary; the model fixes them to `0`.  No
claim depends on the values of freshly allocated slack bytes. -/
def allocUnsafe (n : Nat) : List Nat :=
  List.replicate n 0

/-! ## JavaScript numbers and the validators of `src/utils.ts` -/

/-- A JavaScript `number` argument as seen by the validators: an integer, a
finite non-integer (e.g. `10.1`), `+Infinity`, or `NaN`. -/
inductive JSNum : Type where
  | int (n : Int)
  | frac
  | infinite
  | nan
deriving DecidableEq, Repr

/-- JavaScript truthiness of a `number`: `0` and `NaN` are falsy, everything
else is truthy. -/
def JSNum.truthy : JSNum → Bool
  | .int n => n ≠ 0
  | .frac => true
  | .infinite => true
  | .nan => false

/-- `isFiniteInteger` from `src/utils.ts`. -/
def JSNum.isFiniteInteger : JSNum → Bool
  | .int _ => true
  | _ => false

/-- The error taxonomy (`ERRORS` of `src/utils.ts`, plus the `RangeError`s
thrown by the underlying Node `Buffer` primitives). -/
inductive Err : Type where
  | invalidEncoding
  | invalidSize
  | invalidBuffer
  | invalidObject
  | invalidOffset
  | invalidLength
  | invalidTargetOffset
  | readBeyondBounds
  | writeBeyondBounds
  | rangeError
deriving DecidableEq, Repr

deriving instance DecidableEq for Except

/-- `checkOffsetValue`: an offset must be a finite non-negative integer. -/
def checkOffsetValue (v : JSNum) : Option Err :=
  match v with
  | .int n => if n < 0 then some .invalidOffset else none
  | _ => some .invalidOffset

/-- `checkLengthValue`: a length must be a finite non-negative integer. -/
def checkLengthValue (v : JSNum) : Option Err :=
  match v with
  | .int n => if n < 0 then some .invalidLength else none
  | _ => some .invalidLength

/-- The encoding names accepted by `Buffer.isEncoding` (the fixed supported
set consumed by `checkEncoding`). -/
def validEncodings : List String :=
  ["ascii", "utf8", "utf-8", "utf16le", "ucs2", "ucs-2", "base64", "latin1",
   "binary", "hex"]

/-- `checkEncoding` from `src/utils.ts`. -/
def checkEncoding (e : String) : Option Err :=
  if e ∈ validEncodings then none else some .invalidEncoding

/-! ## The SmartBuffer state -/

/-- The state of a `SmartBuffer` instance: physical store, logical length,
the two cursors and the default text encoding. -/
structure SB : Type where
  buff : List Nat
  length : Nat
  readOffset : Nat
  writeOffset : Nat
  encoding : String := "utf8"
deriving DecidableEq, Repr

/-- The default size of the internal buffer (`DEFAULT_SMARTBUFFER_SIZE`). -/
def DEFAULT_SMARTBUFFER_SIZE : Nat := 4096

/-- `SmartBuffer.fromBuffer b`: adopt `b` as the internal buffer;
`length` becomes `b.length`. -/
def SB.fromBuffer (b : List Nat) : SB :=
  { buff := b, length := b.length, readOffset := 0, writeOffset := 0 }

/-- `toBuffer()`: the managed live region `[0, length)`. -/
def SB.toBuffer (s : SB) : List Nat :=
  bufSlice s.buff 0 s.length

/-- `remaining()`: `length - readOffset`. -/
def SB.remaining (s : SB) : Int :=
  (s.length : Int) - (s.readOffset : Int)

/-! ## Capacity growth and the write/insert chokepoints -/

/-- `_ensureCapacity(minLength)`.  The source computes
`newLength = oldLength * 3 / 2 + 1` in JavaScript float arithmetic — exactly
the rational `(3·C + 2)/2` — compares it with `minLength` before any
truncation, and passes the winner to `Buffer.allocUnsafe`, whose `ToIndex`
conversion truncates a fractional size.  Hence the allocation size is
`minLength` when `3·C + 2 < 2·minLength`, and `(3·C + 2) / 2` (integer
division) otherwise.  The old physical region is copied in full
(`data.copy(this._buff, 0, 0, oldLength)`). -/
def _ensureCapacity (s : SB) (minLength : Nat) : SB :=
  let oldLength := s.buff.length
  if minLength > oldLength then
    let alloc :=
      if 3 * oldLength + 2 < 2 * minLength then minLength
      else (3 * oldLength + 2) / 2
    { s with buff := storeWrite (allocUnsafe alloc) 0 (bufSlice s.buff 0 oldLength) }
  else s

/-- `_ensureWriteable(dataLength, offset)` after the offset has been resolved
to a non-negative integer: ensure capacity for `offset + dataLength`, and
extend `length` when the write reaches past it. -/
def _ensureWriteable (s : SB) (dataLength : Nat) (offsetVal : Nat) : SB :=
  let s1 := _ensureCapacity s (offsetVal + dataLength)
  if offsetVal + dataLength > s1.length then
    { s1 with length := offsetVal + dataLength }
  else s1

/-- `ensureInsertable(dataLength, offset)` after `checkOffsetValue`: grow for
`length + dataLength`, shift the tail `[offset, C)` right by `dataLength`
bytes (`this._buff.copy(this._buff, offset + dataLength, offset,
this._buff.length)`, an overlapping copy, truncated at the end of the
region), then update `length`: to `offset + dataLength` if that exceeds the
old length, else by `+ dataLength`. -/
def ensureInsertable (s : SB) (dataLength : Nat) (offset : Nat) : SB :=
  let s1 := _ensureCapacity s (s.length + dataLength)
  let buff2 :=
    if offset < s1.length then
      storeWrite s1.buff (offset + dataLength) (bufSlice s1.buff offset s1.buff.length)
    else s1.buff
  let newLength :=
    if offset + dataLength > s1.length then offset + dataLength
    else s1.length + dataLength
  { s1 with buff := buff2, length := newLength }

/-! ## Generic numeric read/write/insert (`_readNumberValue`,
`_writeNumberValue`, `_insertNumberValue`)

The bound `Buffer.prototype.readXXX`/`writeXXX` accessor passed by the
source is embedded by its byte-level effect: a write stores `byteSize`
pre-encoded bytes after checking `offset + byteSize ≤ C` (Node throws a
`RangeError` otherwise), a read returns the `byteSize` bytes at the offset.
Encoding/decoding between values and bytes is the `NumShape` codec below. -/

/-- `_readNumberValue(func, byteSize, offset?)`: `ensureReadable` then read.
Returns the raw bytes read; the caller decodes them. -/
def _readNumberValue (s : SB) (byteSize : Nat) (offset : Option JSNum) :
    Except Err (List Nat) × SB :=
  match offset with
  | some (.int n) =>
      if n < 0 then (.error .invalidOffset, s)
      else if n.toNat + byteSize > s.length then (.error .readBeyondBounds, s)
      else (.ok (bufSlice s.buff n.toNat (n.toNat + byteSize)), s)
  | some _ => (.error .invalidOffset, s)
  | none =>
      if s.readOffset + byteSize > s.length then (.error .readBeyondBounds, s)
      else (.ok (bufSlice s.buff s.readOffset (s.readOffset + byteSize)),
            { s with readOffset := s.readOffset + byteSize })

/-- `_writeNumberValue(func, byteSize, value, offset?)` with `value` already
encoded to `bytes` (`bytes.length = byteSize`).  With an explicit offset the
source first rejects a negative offset (`INVALID_WRITE_BEYOND_BOUNDS`), then
runs `checkOffsetValue`; afterwards `_ensureWriteable` guarantees capacity,
the accessor stores the bytes, and the write cursor becomes
`max(writeOffset, offset + byteSize)` (explicit offset) or advances by
`byteSize` (relative). -/
def _writeNumberValue (s : SB) (bytes : List Nat) (offset : Option JSNum) :
    Except Err Unit × SB :=
  match offset with
  | some (.int n) =>
      if n < 0 then (.error .writeBeyondBounds, s)
      else
        let o := n.toNat
        let s1 := _ensureWriteable s bytes.length o
        if o + bytes.length ≤ s1.buff.length then
          (.ok (), { s1 with buff := storeWrite s1.buff o bytes,
                             writeOffset := max s1.writeOffset (o + bytes.length) })
        else (.error .rangeError, s1)
  | some _ => (.error .invalidOffset, s)
  | none =>
      let o := s.writeOffset
      let s1 := _ensureWriteable s bytes.length o
      if o + bytes.length ≤ s1.buff.length then
        (.ok (), { s1 with buff := storeWrite s1.buff o bytes,
                           writeOffset := s1.writeOffset + bytes.length })
      else (.error .rangeError, s1)

/-- `_insertNumberValue(func, byteSize, value, offset)`: `checkOffsetValue`,
`ensureInsertable`, then the accessor stores the bytes — throwing a
`RangeError` when `offset + byteSize` exceeds the physical capacity (the
state keeps the mutations `ensureInsertable` already performed) — and finally
`writeOffset += byteSize`. -/
def _insertNumberValue (s : SB) (bytes : List Nat) (offset : JSNum) :
    Except Err Unit × SB :=
  match offset with
  | .int n =>
      if n < 0 then (.error .invalidOffset, s)
      else
        let o := n.toNat
        let s1 := ensureInsertable s bytes.length o
        if o + bytes.length ≤ s1.buff.length then
          (.ok (), { s1 with buff := storeWrite s1.buff o bytes,
                             writeOffset := s1.writeOffset + bytes.length })
        else (.error .rangeError, s1)
  | _ => (.error .invalidOffset, s)

/-! ## Buffer runs (`readBuffer`, `writeBuffer`, `insertBuffer`, `*NT`) -/

/-- `readBuffer(length?)`: validate the length argument, clamp the end point
to `min(this.length, readOffset + lengthVal)`, return the slice and move
`readOffset` to the end point. -/
def readBufferImpl (s : SB) (len : Option JSNum) : Except Err (List Nat) × SB :=
  match len with
  | some (.int n) =>
      if n < 0 then (.error .invalidLength, s)
      else
        let endPoint := min s.length (s.readOffset + n.toNat)
        (.ok (bufSlice s.buff s.readOffset endPoint), { s with readOffset := endPoint })
  | some _ => (.error .invalidLength, s)
  | none =>
      let endPoint := min s.length (s.readOffset + s.length)
      (.ok (bufSlice s.buff s.readOffset endPoint), { s with readOffset := endPoint })

/-- `_handleBuffer(value, isInsert := false, offset?)` (the body of
`writeBuffer`).  The source performs no validation of the explicit offset:
`_ensureWriteable` runs — mutating capacity and `length` under JavaScript
signed arithmetic — and only then does `value.copy(this._buff, offsetVal)`
throw a `RangeError` for a negative target offset.  A non-negative copy
truncates at the end of the store and never throws. -/
def writeBufferImpl (s : SB) (value : List Nat) (offset : Option Int) :
    Except Err Unit × SB :=
  let offsetVal : Int := offset.getD (s.writeOffset : Int)
  let s1 := _ensureCapacity s (offsetVal + value.length).toNat
  let len2 : Nat :=
    if offsetVal + (value.length : Int) > (s1.length : Int) then
      (offsetVal + value.length).toNat
    else s1.length
  let s2 := { s1 with length := len2 }
  if offsetVal < 0 then (.error .rangeError, s2)
  else
    let o := offsetVal.toNat
    match offset with
    | some _ =>
        (.ok (), { s2 with buff := storeWrite s2.buff o value,
                           writeOffset := max s2.writeOffset (o + value.length) })
    | none =>
        (.ok (), { s2 with buff := storeWrite s2.buff o value,
                           writeOffset := s2.writeOffset + value.length })

/-- `insertBuffer(value, offset)`: `checkOffsetValue`, then
`_handleBuffer(value, isInsert := true)`: `ensureInsertable`, the
(truncating, never-throwing for a validated offset) copy, and
`writeOffset += value.length`. -/
def insertBufferImpl (s : SB) (value : List Nat) (offset : JSNum) :
    Except Err Unit × SB :=
  match offset with
  | .int n =>
      if n < 0 then (.error .invalidOffset, s)
      else
        let o := n.toNat
        let s1 := ensureInsertable s value.length o
        (.ok (), { s1 with buff := storeWrite s1.buff o value,
                           writeOffset := s1.writeOffset + value.length })
  | _ => (.error .invalidOffset, s)

/-- Scan for the first zero byte: the loop
`for (i = readOffset; i < length; i++) if (buff[i] === 0)`.
The fuel is `length - readOffset`; `buff[i]` for `i` beyond the physical
region is `undefined`, which is not `0`, hence the default `1`. -/
def findNull (buff : List Nat) : Nat → Nat → Nat
  | 0, i => i
  | fuel + 1, i => if buff.getD i 1 = 0 then i else findNull buff fuel (i + 1)

/-- `nullPos` as computed by `readStringNT` / `readBufferNT`: the first zero
byte at an index in `[readOffset, length)`, or `length` when none exists
(also when `readOffset ≥ length`, where the loop does not run). -/
def nullPosOf (s : SB) : Nat :=
  min (findNull s.buff (s.length - s.readOffset) s.readOffset) s.length

/-- `readBufferNT()`: slice `[readOffset, nullPos)` and set
`readOffset = nullPos + 1`, consuming the (possibly synthesized)
terminator. -/
def readBufferNTImpl (s : SB) : List Nat × SB :=
  let nullPos := nullPosOf s
  (bufSlice s.buff s.readOffset nullPos, { s with readOffset := nullPos + 1 })

/-- `readStringNT(encoding?)`: identical scan and cursor update; the byte
span is then decoded by the external codec. -/
def readStringNTImpl (s : SB) : List Nat × SB :=
  readBufferNTImpl s

/-- `writeBufferNT(value, offset?)`: eager `checkOffsetValue` on a provided
offset, then `writeBuffer`, then `writeUInt8(0, offset + value.length)`
(explicit offset) or `writeUInt8(0, this._writeOffset)` — the write cursor
read *after* the first write. -/
def writeBufferNTImpl (s : SB) (value : List Nat) (offset : Option JSNum) :
    Except Err Unit × SB :=
  match offset with
  | some (.int n) =>
      if n < 0 then (.error .invalidOffset, s)
      else
        match writeBufferImpl s value (some (n.toNat : Int)) with
        | (.error e, s1) => (.error e, s1)
        | (.ok _, s1) => _writeNumberValue s1 [0] (some (.int (n + value.length)))
  | some _ => (.error .invalidOffset, s)
  | none =>
      match writeBufferImpl s value none with
      | (.error e, s1) => (.error e, s1)
      | (.ok _, s1) => _writeNumberValue s1 [0] (some (.int s1.writeOffset))

/-- `insertBufferNT(value, offset)`: `checkOffsetValue`, `insertBuffer`, then
`insertUInt8(0x00, offset + value.length)`. -/
def insertBufferNTImpl (s : SB) (value : List Nat) (offset : JSNum) :
    Except Err Unit × SB :=
  match offset with
  | .int n =>
      if n < 0 then (.error .invalidOffset, s)
      else
        match insertBufferImpl s value (.int n) with
        | (.error e, s1) => (.error e, s1)
        | (.ok _, s1) => _insertNumberValue s1 [0] (.int (n + value.length))
  | _ => (.error .invalidOffset, s)

/-! ## Strings

`_handleString` resolves the encoding, computes the encoded byte length of
the text *before* reserving space, and then behaves like a byte-run
write/insert of those bytes (`this._buff.write`, which like `copy` truncates
at the end of the region but — like the numeric accessors — throws a
`RangeError` for an offset outside `[0, C]`).  A string value is therefore
embedded by its encoded bytes `encBytes`. -/

/-- `readString(length?)` (numeric first argument, or omitted).  The length
computation `Math.min(arg1, this.length - this._readOffset)` is JavaScript
signed arithmetic, hence the `Int` intermediate values. -/
def readStringImpl (s : SB) (len : Option JSNum) : Except Err (List Nat) × SB :=
  match len with
  | some (.int n) =>
      if n < 0 then (.error .invalidLength, s)
      else
        let lengthVal : Int := min (n : Int) (s.remaining)
        let newRead : Nat := ((s.readOffset : Int) + lengthVal).toNat
        (.ok (bufSlice s.buff s.readOffset newRead), { s with readOffset := newRead })
  | some _ => (.error .invalidLength, s)
  | none =>
      let newRead : Nat := ((s.readOffset : Int) + s.remaining).toNat
      (.ok (bufSlice s.buff s.readOffset newRead), { s with readOffset := newRead })

/-- `writeString(value, offset?, encoding?)` via `_handleString(isInsert :=
false)`: resolve and eagerly check the encoding, then proceed exactly as
`writeBuffer` on the encoded bytes (negative explicit offsets are *not*
validated; `this._buff.write` throws only when the store is touched). -/
def writeStringImpl (s : SB) (encBytes : List Nat) (offset : Option Int)
    (enc : Option String) : Except Err Unit × SB :=
  match enc with
  | some e =>
      match checkEncoding e with
      | some err => (.error err, s)
      | none => writeBufferImpl s encBytes offset
  | none => writeBufferImpl s encBytes offset

/-- `insertString(value, offset, encoding?)`: eager `checkOffsetValue`, then
`_handleString(isInsert := true)`: encoding check, `ensureInsertable`, and
`this._buff.write(value, offset, byteLength, encoding)` — which throws a
`RangeError` when `offset` lies beyond the physical capacity — then
`writeOffset += byteLength`. -/
def insertStringImpl (s : SB) (encBytes : List Nat) (offset : JSNum)
    (enc : Option String) : Except Err Unit × SB :=
  match offset with
  | .int n =>
      if n < 0 then (.error .invalidOffset, s)
      else
        match enc with
        | some e =>
            match checkEncoding e with
            | some err => (.error err, s)
            | none =>
                let o := n.toNat
                let s1 := ensureInsertable s encBytes.length o
                if o ≤ s1.buff.length then
                  (.ok (), { s1 with buff := storeWrite s1.buff o encBytes,
                                     writeOffset := s1.writeOffset + encBytes.length })
                else (.error .rangeError, s1)
        | none =>
            let o := n.toNat
            let s1 := ensureInsertable s encBytes.length o
            if o ≤ s1.buff.length then
              (.ok (), { s1 with buff := storeWrite s1.buff o encBytes,
                                 writeOffset := s1.writeOffset + encBytes.length })
            else (.error .rangeError, s1)
  | _ => (.error .invalidOffset, s)

/-- ASCII text decoding: the restriction of `Buffer.prototype.toString` with
the default `utf8` encoding to bytes below `0x80`, where each byte is one
character.  This models the external codec collaborator on the byte runs the
claims mention. -/
def asciiDecode (bs : List Nat) : String :=
  String.mk (bs.map Char.ofNat)

/-! ## Cursor setters and reset -/

/-- `set readOffset`: `checkOffsetValue` then `checkTargetOffset`
(`offset > length` is rejected). -/
def setReadOffsetImpl (s : SB) (v : JSNum) : Except Err Unit × SB :=
  match v with
  | .int n =>
      if n < 0 then (.error .invalidOffset, s)
      else if n.toNat > s.length then (.error .invalidTargetOffset, s)
      else (.ok (), { s with readOffset := n.toNat })
  | _ => (.error .invalidOffset, s)

/-- `set writeOffset`: same validation as the read cursor. -/
def setWriteOffsetImpl (s : SB) (v : JSNum) : Except Err Unit × SB :=
  match v with
  | .int n =>
      if n < 0 then (.error .invalidOffset, s)
      else if n.toNat > s.length then (.error .invalidTargetOffset, s)
      else (.ok (), { s with writeOffset := n.toNat })
  | _ => (.error .invalidOffset, s)

/-- `clear()`: reset `length` and both cursors, keep the store. -/
def clearImpl (s : SB) : SB :=
  { s with length := 0, readOffset := 0, writeOffset := 0 }

/-! ## Construction (`constructor(options?)`) -/

/-- `SmartBufferOptions`. -/
structure SBOptions : Type where
  encoding : Option String := none
  size : Option JSNum := none
  buff : Option (List Nat) := none
deriving DecidableEq, Repr

/-- The constructor.  `isSmartBufferOptions` holds when any of the three
fields is defined.  The `size` branch is guarded by JavaScript truthiness
(`if (options.size)`), so `size: 0` and `size: NaN` fall through to the
`buff`/default branches; a truthy size must be a finite integer `> 0` or
construction fails with `INVALID_SMARTBUFFER_SIZE`.  Passing an argument that
is not a `SmartBufferOptions` object fails with
`INVALID_SMARTBUFFER_OBJECT`. -/
def construct (options : Option SBOptions) : Except Err SB :=
  match options with
  | none =>
      .ok { buff := allocUnsafe DEFAULT_SMARTBUFFER_SIZE, length := 0,
            readOffset := 0, writeOffset := 0 }
  | some opts =>
      if opts.encoding.isSome || opts.size.isSome || opts.buff.isSome then
        let encRes : Except Err String :=
          match opts.encoding with
          | some e => match checkEncoding e with
                      | some err => .error err
                      | none => .ok e
          | none => .ok "utf8"
        match encRes with
        | .error e => .error e
        | .ok enc =>
            let tail : Except Err SB :=
              match opts.buff with
              | some b =>
                  .ok { buff := b, length := b.length, readOffset := 0,
                        writeOffset := 0, encoding := enc }
              | none =>
                  .ok { buff := allocUnsafe DEFAULT_SMARTBUFFER_SIZE, length := 0,
                        readOffset := 0, writeOffset := 0, encoding := enc }
            match opts.size with
            | some sz =>
                if sz.truthy then
                  match sz with
                  | .int n =>
                      if 0 < n then
                        .ok { buff := allocUnsafe n.toNat, length := 0,
                              readOffset := 0, writeOffset := 0, encoding := enc }
                      else .error .invalidSize
                  | _ => .error .invalidSize
                else tail
            | none => tail
      else .error .invalidObject

/-! ## The fixed-width numeric codec -/

/-- Little-endian bytes of `v`, `width` bytes. -/
def encLE : Nat → Nat → List Nat
  | 0, _ => []
  | w + 1, v => v % 256 :: encLE w (v / 256)

/-- Little-endian decoding. -/
def decLE : List Nat → Nat
  | [] => 0
  | b :: bs => b + 256 * decLE bs

/-- Byte order. -/
inductive Endian : Type where
  | le
  | be
deriving DecidableEq, Repr

/-- A fixed-width numeric shape: width in bytes, signedness, byte order.
The ten shapes of the source are `width ∈ {1,2,4,8}` signed/unsigned
integers plus the 32/64-bit float shapes; a float value is transported by
its IEEE-754 bit pattern, i.e. as the unsigned shape of the same width. -/
structure NumShape : Type where
  width : Nat
  signed : Bool
  endian : Endian
deriving DecidableEq, Repr

/-- The values representable in a shape. -/
def NumShape.inRange (sh : NumShape) (v : Int) : Prop :=
  if sh.signed then
    -(2 ^ (8 * sh.width - 1)) ≤ v ∧ v < 2 ^ (8 * sh.width - 1)
  else
    0 ≤ v ∧ v < 2 ^ (8 * sh.width)

instance (sh : NumShape) (v : Int) : Decidable (sh.inRange v) := by
  unfold NumShape.inRange
  split <;> infer_instance

/-- Encode a value to its `width` bytes (two's complement for the signed
shapes, exactly what `Buffer.prototype.writeIntXX`/`writeUIntXX` store). -/
def NumShape.encode (sh : NumShape) (v : Int) : List Nat :=
  let u := (v % (2 ^ (8 * sh.width))).toNat
  match sh.endian with
  | .le => encLE sh.width u
  | .be => (encLE sh.width u).reverse

/-- Decode `width` bytes back to a value (sign-extending for the signed
shapes, as `Buffer.prototype.readIntXX`/`readUIntXX` do). -/
def NumShape.decode (sh : NumShape) (bs : List Nat) : Int :=
  let u : Nat :=
    match sh.endian with
    | .le => decLE bs
    | .be => decLE bs.reverse
  if sh.signed then
    if u < 2 ^ (8 * sh.width - 1) then (u : Int) else (u : Int) - 2 ^ (8 * sh.width)
  else u

/-- The shape's relative write (`writeInt8`, `writeUInt16LE`, …,
`writeDoubleBE` with no explicit offset). -/
def writeShape (sh : NumShape) (v : Int) (s : SB) : Except Err Unit × SB :=
  _writeNumberValue s (sh.encode v) none

/-- The shape's relative read. -/
def readShape (sh : NumShape) (s : SB) : Except Err Int × SB :=
  match _readNumberValue s sh.width none with
  | (.error e, s') => (.error e, s')
  | (.ok bs, s') => (.ok (sh.decode bs), s')

/-! ## The public operations as one step relation (for the cursor
invariant) -/

/-- A public operation of the engine, with its arguments.  String values are
carried as their encoded bytes.  `writeStringNT`/`insertStringNT` are the
compositions of the listed operations and are not separate constructors. -/
inductive Op : Type where
  | readNum (k : Nat) (off : Option JSNum)
  | writeNum (bytes : List Nat) (off : Option JSNum)
  | insertNum (bytes : List Nat) (off : JSNum)
  | readBuf (len : Option JSNum)
  | readStr (len : Option JSNum)
  | readBufNT
  | readStrNT
  | writeBuf (value : List Nat) (off : Option Int)
  | insertBuf (value : List Nat) (off : JSNum)
  | writeStr (bytes : List Nat) (off : Option Int) (enc : Option String)
  | insertStr (bytes : List Nat) (off : JSNum) (enc : Option String)
  | writeBufNT (value : List Nat) (off : Option JSNum)
  | insertBufNT (value : List Nat) (off : JSNum)
  | setRead (v : JSNum)
  | setWrite (v : JSNum)
  | clearOp
deriving DecidableEq, Repr

/-- The state after running a public operation (the state of the JavaScript
object when the call returns or throws). -/
def runOp (op : Op) (s : SB) : SB :=
  match op with
  | .readNum k off => (_readNumberValue s k off).2
  | .writeNum bytes off => (_writeNumberValue s bytes off).2
  | .insertNum bytes off => (_insertNumberValue s bytes off).2
  | .readBuf len => (readBufferImpl s len).2
  | .readStr len => (readStringImpl s len).2
  | .readBufNT => (readBufferNTImpl s).2
  | .readStrNT => (readStringNTImpl s).2
  | .writeBuf value off => (writeBufferImpl s value off).2
  | .insertBuf value off => (insertBufferImpl s value off).2
  | .writeStr bytes off enc => (writeStringImpl s bytes off enc).2
  | .insertStr bytes off enc => (insertStringImpl s bytes off enc).2
  | .writeBufNT value off => (writeBufferNTImpl s value off).2
  | .insertBufNT value off => (insertBufferNTImpl s value off).2
  | .setRead v => (setReadOffsetImpl s v).2
  | .setWrite v => (setWriteOffsetImpl s v).2
  | .clearOp => clearImpl s

/-- The cursor invariant of §3 of the spec: both cursors lie in
`[0, length]` (the lower bounds are inherent in `Nat`). -/
def Inv (s : SB) : Prop :=
  s.readOffset ≤ s.length ∧ s.writeOffset ≤ s.length

instance (s : SB) : Decidable (Inv s) := by
  unfold Inv; infer_instance

/-- An insert at offset `o` of `k` bytes keeps the write cursor inside the
managed region exactly when the insert lands inside the live data or at or
beyond the write cursor. -/
def insOkCond (s : SB) (k o : Nat) : Prop :=
  o + k ≤ s.length ∨ s.writeOffset ≤ o

instance (s : SB) (k o : Nat) : Decidable (insOkCond s k o) := by
  unfold insOkCond; infer_instance

/-- The side condition under which an operation preserves the cursor
invariant: the null-terminated reads need a terminator in the unread region,
and the inserts must not land strictly between the write cursor and the end
of the region they extend past. -/
def opOk (op : Op) (s : SB) : Prop :=
  match op with
  | .readBufNT | .readStrNT =>
      ∃ i, s.readOffset ≤ i ∧ i < s.length ∧ s.buff.getD i 1 = 0
  | .insertNum bytes (.int n) => 0 ≤ n → insOkCond s bytes.length n.toNat
  | .insertBuf value (.int n) => 0 ≤ n → insOkCond s value.length n.toNat
  | .insertStr bytes (.int n) _ => 0 ≤ n → insOkCond s bytes.length n.toNat
  | .insertBufNT value (.int n) => 0 ≤ n → insOkCond s value.length n.toNat
  | _ => True

end SmartBufferSpec

namespace SmartBufferSpec

/-! ## Lemmas about the byte-region primitives -/

theorem storeWrite_length (b : List Nat) (o : Nat) (xs : List Nat) :
    (storeWrite b o xs).length = b.length := by
  simp only [storeWrite, List.length_append, List.length_take, List.length_drop]
  omega

theorem bufSlice_length (b : List Nat) (i j : Nat) :
    (bufSlice b i j).length = min (j - i) (b.length - i) := by
  simp only [bufSlice, List.length_take, List.length_drop]

theorem bufSlice_getElem? (b : List Nat) (i j t : Nat) :
    (bufSlice b i j)[t]? = if t < j - i then b[i + t]? else none := by
  simp only [bufSlice, List.getElem?_take, List.getElem?_drop]

theorem storeWrite_getElem?_lt (b : List Nat) (o : Nat) (xs : List Nat) (i : Nat)
    (h : i < o) : (storeWrite b o xs)[i]? = b[i]? := by
  by_cases hib : i < b.length
  · simp only [storeWrite]
    rw [List.getElem?_append,
      if_pos (by simp only [List.length_append, List.length_take]; omega),
      List.getElem?_append, if_pos (by simp only [List.length_take]; omega),
      List.getElem?_take, if_pos h]
  · rw [List.getElem?_eq_none (by rw [storeWrite_length]; omega),
      List.getElem?_eq_none (by omega)]

theorem storeWrite_getElem?_mid (b : List Nat) (o : Nat) (xs : List Nat) (i : Nat)
    (h1 : o ≤ i) (h2 : i < o + xs.length) (h3 : i < b.length) :
    (storeWrite b o xs)[i]? = xs[i - o]? := by
  simp only [storeWrite]
  rw [List.getElem?_append,
    if_pos (by simp only [List.length_append, List.length_take]; omega),
    List.getElem?_append, if_neg (by simp only [List.length_take]; omega),
    List.getElem?_take]
  simp only [List.length_take]
  rw [if_pos (by omega)]
  congr 1
  omega

theorem storeWrite_getElem?_ge (b : List Nat) (o : Nat) (xs : List Nat) (i : Nat)
    (h : o + xs.length ≤ i) : (storeWrite b o xs)[i]? = b[i]? := by
  by_cases hib : i < b.length
  · simp only [storeWrite]
    rw [List.getElem?_append,
      if_neg (by simp only [List.length_append, List.length_take]; omega)]
    simp only [List.length_append, List.length_take]
    rw [List.getElem?_drop]
    congr 1
    omega
  · rw [List.getElem?_eq_none (by rw [storeWrite_length]; omega),
      List.getElem?_eq_none (by omega)]

theorem storeWrite_getElem?_none (b : List Nat) (o : Nat) (xs : List Nat) (i : Nat)
    (h : b.length ≤ i) : (storeWrite b o xs)[i]? = none := by
  apply List.getElem?_eq_none
  rw [storeWrite_length]
  exact h

theorem allocUnsafe_length (n : Nat) : (allocUnsafe n).length = n :=
  List.length_replicate n 0

theorem bufSlice_all (b : List Nat) : bufSlice b 0 b.length = b := by
  simp [bufSlice]

/-- Reading back the freshly written bytes: `bufSlice (storeWrite b o xs) o
(o + xs.length) = xs` when the write fits the region. -/
theorem bufSlice_storeWrite_self (b : List Nat) (o : Nat) (xs : List Nat)
    (h : o + xs.length ≤ b.length) :
    bufSlice (storeWrite b o xs) o (o + xs.length) = xs := by
  apply List.ext_getElem?
  intro t
  rw [bufSlice_getElem?]
  by_cases ht : t < xs.length
  · rw [if_pos (by omega)]
    rw [storeWrite_getElem?_mid b o xs (o + t) (by omega) (by omega) (by omega)]
    congr 1
    omega
  · rw [if_neg (by omega), Eq.comm]
    exact List.getElem?_eq_none (by omega)

/-! ## Lemmas about the growth and chokepoint steps -/

theorem ec_nogrow (s : SB) (m : Nat) (h : m ≤ s.buff.length) :
    _ensureCapacity s m = s := by
  simp only [_ensureCapacity]
  rw [if_neg (by omega)]

theorem ec_length (s : SB) (m : Nat) : (_ensureCapacity s m).length = s.length := by
  simp only [_ensureCapacity]
  split <;> rfl

theorem ec_readOffset (s : SB) (m : Nat) :
    (_ensureCapacity s m).readOffset = s.readOffset := by
  simp only [_ensureCapacity]
  split <;> rfl

theorem ec_writeOffset (s : SB) (m : Nat) :
    (_ensureCapacity s m).writeOffset = s.writeOffset := by
  simp only [_ensureCapacity]
  split <;> rfl

/-- The allocation size chosen by `_ensureCapacity` when it grows. -/
theorem ec_buff_length_grow (s : SB) (m : Nat) (h : s.buff.length < m) :
    (_ensureCapacity s m).buff.length =
      if 3 * s.buff.length + 2 < 2 * m then m else (3 * s.buff.length + 2) / 2 := by
  simp only [_ensureCapacity]
  rw [if_pos (by omega)]
  simp only [storeWrite_length, allocUnsafe_length]

theorem ec_cap (s : SB) (m : Nat) : m ≤ (_ensureCapacity s m).buff.length := by
  by_cases h : s.buff.length < m
  · rw [ec_buff_length_grow s m h]
    split <;> omega
  · rw [ec_nogrow s m (by omega)]
    omega

theorem ec_cap_ge_old (s : SB) (m : Nat) :
    s.buff.length ≤ (_ensureCapacity s m).buff.length := by
  by_cases h : s.buff.length < m
  · rw [ec_buff_length_grow s m h]
    split <;> omega
  · rw [ec_nogrow s m (by omega)]

/-- Growth preserves the old physical bytes. -/
theorem ec_buff_getElem? (s : SB) (m : Nat) (i : Nat) (h : i < s.buff.length) :
    (_ensureCapacity s m).buff[i]? = s.buff[i]? := by
  by_cases hg : s.buff.length < m
  · simp only [_ensureCapacity]
    rw [if_pos (by omega)]
    simp only []
    rw [storeWrite_getElem?_mid _ _ _ _ (by omega)
        (by rw [bufSlice_length]; omega)
        (by rw [allocUnsafe_length]; split <;> omega)]
    rw [bufSlice_getElem?, if_pos (by omega)]
    congr 1
    omega
  · rw [ec_nogrow s m (by omega)]

theorem ew_length (s : SB) (k o : Nat) :
    (_ensureWriteable s k o).length = max s.length (o + k) := by
  simp only [_ensureWriteable]
  split <;> simp only [ec_length] at * <;> omega

theorem ew_readOffset (s : SB) (k o : Nat) :
    (_ensureWriteable s k o).readOffset = s.readOffset := by
  simp only [_ensureWriteable]
  split <;> simp only [ec_readOffset]

theorem ew_writeOffset (s : SB) (k o : Nat) :
    (_ensureWriteable s k o).writeOffset = s.writeOffset := by
  simp only [_ensureWriteable]
  split <;> simp only [ec_writeOffset]

theorem ew_buff (s : SB) (k o : Nat) :
    (_ensureWriteable s k o).buff = (_ensureCapacity s (o + k)).buff := by
  simp only [_ensureWriteable]
  split <;> rfl

theorem ew_cap (s : SB) (k o : Nat) : o + k ≤ (_ensureWriteable s k o).buff.length := by
  rw [ew_buff]
  exact ec_cap s (o + k)

theorem ei_length (s : SB) (k o : Nat) :
    (ensureInsertable s k o).length =
      if o + k > s.length then o + k else s.length + k := by
  simp only [ensureInsertable, ec_length]

theorem ei_readOffset (s : SB) (k o : Nat) :
    (ensureInsertable s k o).readOffset = s.readOffset := by
  simp only [ensureInsertable, ec_readOffset]

theorem ei_writeOffset (s : SB) (k o : Nat) :
    (ensureInsertable s k o).writeOffset = s.writeOffset := by
  simp only [ensureInsertable, ec_writeOffset]

theorem ei_buff_length (s : SB) (k o : Nat) :
    (ensureInsertable s k o).buff.length =
      (_ensureCapacity s (s.length + k)).buff.length := by
  simp only [ensureInsertable]
  split <;> simp only [storeWrite_length]

theorem ei_cap (s : SB) (k o : Nat) :
    s.length + k ≤ (ensureInsertable s k o).buff.length := by
  rw [ei_buff_length]
  exact ec_cap s (s.length + k)

/-- Inside the prefix `[0, offset)` an insert's shift does not move
anything. -/
theorem ei_buff_getElem?_lt (s : SB) (k o : Nat) (i : Nat) (h : i < o)
    (hc : i < s.buff.length) :
    (ensureInsertable s k o).buff[i]? = s.buff[i]? := by
  simp only [ensureInsertable]
  have hec := ec_buff_getElem? s (s.length + k) i hc
  split
  · rw [storeWrite_getElem?_lt _ _ _ _ (by omega)]
    exact hec
  · exact hec

/-- The shifted tail: for `o + k ≤ j` within capacity, the post-shift byte at
`j` is the post-growth byte at `j - k` (provided the shift copy ran, i.e.
`o` is below the live end). -/
theorem ei_buff_getElem?_shift (s : SB) (k o : Nat) (j : Nat)
    (hol : o < s.length)
    (h1 : o + k ≤ j) (h2 : j < (ensureInsertable s k o).buff.length) :
    (ensureInsertable s k o).buff[j]? =
      (_ensureCapacity s (s.length + k)).buff[j - k]? := by
  have h2' : j < (_ensureCapacity s (s.length + k)).buff.length := by
    rw [← ei_buff_length s k o]
    exact h2
  have hcap := ec_cap s (s.length + k)
  simp only [ensureInsertable]
  rw [if_pos (by rw [ec_length]; omega)]
  rw [storeWrite_getElem?_mid _ _ _ _ (by omega)
      (by rw [bufSlice_length]; omega) h2']
  rw [bufSlice_getElem?]
  rw [if_pos (by omega)]
  congr 1
  omega

/-- When the insert offset is at or past the live end, no shift copy runs. -/
theorem ei_buff_ge (s : SB) (k o : Nat) (h : s.length ≤ o) :
    (ensureInsertable s k o).buff = (_ensureCapacity s (s.length + k)).buff := by
  simp only [ensureInsertable]
  rw [if_neg (by rw [ec_length]; omega)]

/-! ## Lemmas about the fixed-width codec -/

theorem encLE_length (w v : Nat) : (encLE w v).length = w := by
  induction w generalizing v with
  | zero => rfl
  | succ w ih => simp only [encLE, List.length_cons, ih]

theorem decLE_encLE (w v : Nat) (h : v < 256 ^ w) : decLE (encLE w v) = v := by
  induction w generalizing v with
  | zero =>
      simp only [pow_zero] at h
      simp only [encLE, decLE]
      omega
  | succ w ih =>
      have hdiv : v / 256 < 256 ^ w := by
        have hp : (256 : Nat) ^ (w + 1) = 256 ^ w * 256 := pow_succ 256 w
        omega
      simp only [encLE, decLE, ih (v / 256) hdiv]
      omega

theorem encode_length (sh : NumShape) (v : Int) : (sh.encode v).length = sh.width := by
  unfold NumShape.encode
  cases sh.endian <;>
    simp only [List.length_reverse, encLE_length]

theorem two_pow_eight_mul (w : Nat) : (256 : Nat) ^ w = 2 ^ (8 * w) := by
  rw [pow_mul]
  norm_num

/-- Round trip of the codec: decoding the encoding of a representable value
gives the value back, for every shape of positive width. -/
theorem decode_encode (sh : NumShape) (v : Int) (hw : 1 ≤ sh.width)
    (h : sh.inRange v) : sh.decode (sh.encode v) = v := by
  have hMpos : (0 : Int) < 2 ^ (8 * sh.width) := by positivity
  have hKpos : (0 : Int) < 2 ^ (8 * sh.width - 1) := by positivity
  have hsplit : (2 : Int) ^ (8 * sh.width) = 2 * 2 ^ (8 * sh.width - 1) := by
    rw [← pow_succ']
    congr 1
    omega
  have hcast1 : ((2 ^ (8 * sh.width - 1) : Nat) : Int) = 2 ^ (8 * sh.width - 1) := by
    push_cast
    ring
  have hcast2 : ((2 ^ (8 * sh.width) : Nat) : Int) = 2 ^ (8 * sh.width) := by
    push_cast
    ring
  have hu_lt : (v % 2 ^ (8 * sh.width)).toNat < 2 ^ (8 * sh.width) := by
    have h1 := Int.emod_nonneg v (by positivity : (2:Int) ^ (8 * sh.width) ≠ 0)
    have h2 := Int.emod_lt_of_pos v hMpos
    omega
  have hdec :
      (match sh.endian with
        | Endian.le => decLE (sh.encode v)
        | Endian.be => decLE (sh.encode v).reverse) =
        (v % 2 ^ (8 * sh.width)).toNat := by
    unfold NumShape.encode
    cases sh.endian <;> simp only [List.reverse_reverse] <;>
      refine decLE_encLE _ _ ?_ <;>
      · rw [two_pow_eight_mul]
        exact_mod_cast hu_lt
  unfold NumShape.decode NumShape.inRange at *
  rw [hdec]
  by_cases hs : sh.signed
  · simp only [hs, if_true] at *
    by_cases hv : 0 ≤ v
    · have hemod : v % 2 ^ (8 * sh.width) = v := by
        apply Int.emod_eq_of_lt hv
        omega
      rw [if_pos (by omega)]
      omega
    · have key := Int.add_mul_emod_self_left (a := v)
        (b := (2:Int) ^ (8 * sh.width)) (c := 1)
      rw [mul_one] at key
      have hemod : v % 2 ^ (8 * sh.width) = v + 2 ^ (8 * sh.width) := by
        rw [← key]
        apply Int.emod_eq_of_lt (by omega) (by omega)
      rw [if_neg (by omega)]
      omega
  · simp only [Bool.not_eq_true] at hs
    simp only [hs, Bool.false_eq_true, if_false] at *
    have hemod : v % 2 ^ (8 * sh.width) = v :=
      Int.emod_eq_of_lt h.1 h.2
    omega

/-! ## Claim C3: the null-terminator scan example -/

/-- C3 (counterexample): on live bytes `[0x61, 0x62, 0x00, 0x63]` the second
`readStringNT()` does *not* leave `readOffset = 4`: no terminator follows
`0x63`, so `nullPos` falls back to `length = 4` and the cursor is set to
`nullPos + 1 = 5`. -/
theorem c3_readStringNT_cex :
    (readStringNTImpl (readStringNTImpl (SB.fromBuffer [0x61, 0x62, 0x00, 0x63])).2).2.readOffset
        = 5 ∧
    ¬ ((readStringNTImpl (readStringNTImpl
        (SB.fromBuffer [0x61, 0x62, 0x00, 0x63])).2).2.readOffset = 4) := by
  decide

/-- C3 (amended): on a buffer with live bytes `[0x61, 0x62, 0x00, 0x63]` and
`readOffset = 0`, the first `readStringNT()` returns `"ab"` and leaves
`readOffset = 3`; the second returns `"c"` and leaves `readOffset = 5` (one
past the end of data, the terminator being synthesized at end-of-data). -/
theorem c3_readStringNT_amended :
    asciiDecode (readStringNTImpl (SB.fromBuffer [0x61, 0x62, 0x00, 0x63])).1 = "ab" ∧
    (readStringNTImpl (SB.fromBuffer [0x61, 0x62, 0x00, 0x63])).2.readOffset = 3 ∧
    asciiDecode (readStringNTImpl (readStringNTImpl
        (SB.fromBuffer [0x61, 0x62, 0x00, 0x63])).2).1 = "c" ∧
    (readStringNTImpl (readStringNTImpl
        (SB.fromBuffer [0x61, 0x62, 0x00, 0x63])).2).2.readOffset = 5 := by
  decide

/-! ## Claim C5: the growth step -/

/-- C5: when `minLength` exceeds the physical capacity `C`, the grown store
has size exactly `max minLength (⌊C·3/2⌋ + 1)` and its first `C` bytes are
the entire previous physical region. -/
theorem c5_growth (s : SB) (m : Nat) (h : s.buff.length < m) :
    (_ensureCapacity s m).buff.length = max m (3 * s.buff.length / 2 + 1) ∧
    bufSlice (_ensureCapacity s m).buff 0 s.buff.length = s.buff := by
  constructor
  · rw [ec_buff_length_grow s m h]
    split <;> omega
  · apply List.ext_getElem?
    intro t
    rw [bufSlice_getElem?]
    by_cases ht : t < s.buff.length
    · rw [if_pos (by omega)]
      rw [show 0 + t = t by omega]
      exact ec_buff_getElem? s m t ht
    · rw [if_neg (by omega), Eq.comm]
      exact List.getElem?_eq_none (by omega)

/-- C5 witness: capacity 1, request 2: the new store has size
`max 2 (⌊1·3/2⌋+1) = 2` and starts with the old byte `7`. -/
theorem c5_growth_witness :
    (SB.fromBuffer [7]).buff.length < 2 ∧
    ((_ensureCapacity (SB.fromBuffer [7]) 2).buff.length =
        max 2 (3 * (SB.fromBuffer [7]).buff.length / 2 + 1) ∧
     bufSlice (_ensureCapacity (SB.fromBuffer [7]) 2).buff 0
        (SB.fromBuffer [7]).buff.length = (SB.fromBuffer [7]).buff) :=
  ⟨by decide, c5_growth (SB.fromBuffer [7]) 2 (by decide)⟩

/-! ## Claim C9: construction validation -/

/-- C9 (counterexample): constructing with `size: 0` does **not** fail: `0`
is falsy, the size branch is skipped, and construction succeeds with the
default 4096-byte store. -/
theorem c9_size_zero_cex :
    construct (some { encoding := none, size := some (.int 0), buff := none }) =
      .ok { buff := allocUnsafe DEFAULT_SMARTBUFFER_SIZE, length := 0,
            readOffset := 0, writeOffset := 0, encoding := "utf8" } := by
  rfl

/-- C9 (amended): a *truthy* capacity that is not a positive finite integer
(negative, finite non-integer, or `Infinity`) fails construction with
`INVALID_SMARTBUFFER_SIZE`; a positive integer capacity `n` yields an
`n`-byte store; but the falsy capacities `0` and `NaN` are silently ignored
and construction succeeds with the default 4096-byte store. -/
theorem c9_construct_amended :
    (∀ n : Int, n < 0 →
      construct (some { encoding := none, size := some (.int n), buff := none }) =
        .error .invalidSize) ∧
    construct (some { encoding := none, size := some .frac, buff := none }) =
      .error .invalidSize ∧
    construct (some { encoding := none, size := some .infinite, buff := none }) =
      .error .invalidSize ∧
    (∀ n : Int, 0 < n →
      construct (some { encoding := none, size := some (.int n), buff := none }) =
        .ok { buff := allocUnsafe n.toNat, length := 0, readOffset := 0,
              writeOffset := 0, encoding := "utf8" }) ∧
    construct (some { encoding := none, size := some (.int 0), buff := none }) =
      .ok { buff := allocUnsafe DEFAULT_SMARTBUFFER_SIZE, length := 0,
            readOffset := 0, writeOffset := 0, encoding := "utf8" } ∧
    construct (some { encoding := none, size := some .nan, buff := none }) =
      .ok { buff := allocUnsafe DEFAULT_SMARTBUFFER_SIZE, length := 0,
            readOffset := 0, writeOffset := 0, encoding := "utf8" } := by
  refine ⟨?_, by rfl, by rfl, ?_, by rfl, by rfl⟩
  · intro n hn
    simp only [construct, JSNum.truthy]
    rw [if_pos (by simp), if_pos (by simp only [decide_eq_true_eq]; omega),
        if_neg (by omega)]
  · intro n hn
    simp only [construct, JSNum.truthy]
    rw [if_pos (by simp), if_pos (by simp only [decide_eq_true_eq]; omega),
        if_pos hn]

/-- C9 witness: the amended statement at `n = -5` and `n = 7`. -/
theorem c9_construct_amended_witness :
    ((-5 : Int) < 0 ∧
      construct (some { encoding := none, size := some (.int (-5)), buff := none }) =
        .error .invalidSize) ∧
    ((0 : Int) < 7 ∧
      construct (some { encoding := none, size := some (.int 7), buff := none }) =
        .ok { buff := allocUnsafe (7 : Int).toNat, length := 0, readOffset := 0,
              writeOffset := 0, encoding := "utf8" }) :=
  ⟨⟨by decide, c9_construct_amended.1 (-5) (by decide)⟩,
   ⟨by decide, c9_construct_amended.2.2.2.1 7 (by decide)⟩⟩

/-! ## Claim C6: writes at an explicit offset -/

/-- C6: a fixed-width or buffer write at a valid explicit offset `o`
succeeds, sets the write cursor to `max(writeOffset, o + bytesWritten)` and
the length to `max(length, o + bytesWritten)`; concretely, on a buffer of
length 5 with `writeOffset = 5`, writing 2 bytes at offset 0 leaves
`writeOffset = 5` and writing 2 bytes at offset 10 yields `length = 12` and
`writeOffset = 12`. -/
theorem c6_offset_write_cursor :
    (∀ (s : SB) (bytes : List Nat) (o : Nat),
      (_writeNumberValue s bytes (some (.int o))).1 = .ok () ∧
      (_writeNumberValue s bytes (some (.int o))).2.writeOffset
          = max s.writeOffset (o + bytes.length) ∧
      (_writeNumberValue s bytes (some (.int o))).2.length
          = max s.length (o + bytes.length)) ∧
    (∀ (s : SB) (value : List Nat) (o : Nat),
      (writeBufferImpl s value (some (o : Int))).1 = .ok () ∧
      (writeBufferImpl s value (some (o : Int))).2.writeOffset
          = max s.writeOffset (o + value.length) ∧
      (writeBufferImpl s value (some (o : Int))).2.length
          = max s.length (o + value.length)) ∧
    (let s5 : SB :=
      { buff := List.replicate 5 9, length := 5, readOffset := 0, writeOffset := 5 };
     (_writeNumberValue s5 [1, 2] (some (.int 0))).2.writeOffset = 5 ∧
     (_writeNumberValue s5 [1, 2] (some (.int 0))).2.length = 5 ∧
     (_writeNumberValue s5 [1, 2] (some (.int 10))).2.writeOffset = 12 ∧
     (_writeNumberValue s5 [1, 2] (some (.int 10))).2.length = 12) := by
  refine ⟨?_, ?_, by decide⟩
  · intro s bytes o
    simp only [_writeNumberValue]
    rw [if_neg (by omega)]
    simp only [Int.toNat_natCast]
    rw [if_pos (ew_cap s bytes.length o)]
    exact ⟨rfl, by simp only [ew_writeOffset], by simp only [ew_length]⟩
  · intro s value o
    simp only [writeBufferImpl, Option.getD_some, Int.toNat_natCast]
    rw [if_neg (by omega)]
    simp only [ec_writeOffset, ec_length, Int.toNat_natCast]
    refine ⟨trivial, trivial, ?_⟩
    split <;> omega

/-! ## Claim C1: insertion splice correctness -/

/-- C1 (counterexample): inserting a 2-byte value at offset 1 into a buffer
of length 2 succeeds but yields length `3`, not `L + k = 4`: the source sets
`length = offset + dataLength` whenever `offset + dataLength > length`, even
though the shifted tail extends further. -/
theorem c1_insert_splice_cex :
    (_insertNumberValue (SB.fromBuffer [10, 20]) [7, 8] (.int 1)).1 = .ok () ∧
    (_insertNumberValue (SB.fromBuffer [10, 20]) [7, 8] (.int 1)).2.length = 3 ∧
    ¬ ((_insertNumberValue (SB.fromBuffer [10, 20]) [7, 8] (.int 1)).2.length
        = 2 + 2) := by
  decide

/-- C1 (amended): for an insert of `k` bytes at offset `o` with
`o + k ≤ length` (and the physical store at least `length` bytes), both the
fixed-width insert and the buffer insert succeed with new length `L + k`,
leave the bytes before `o` unchanged, move the old bytes from `o` on to
`o + k` on, and advance the write cursor by exactly `k` (the read cursor is
untouched).  For `L - k < o < L` the resulting length is `o + k` instead
(see the counterexample). -/
theorem c1_insert_splice (s : SB) (bytes : List Nat) (o : Nat)
    (h1 : o + bytes.length ≤ s.length) (h2 : s.length ≤ s.buff.length) :
    ((_insertNumberValue s bytes (.int o)).1 = .ok () ∧
     (_insertNumberValue s bytes (.int o)).2.length = s.length + bytes.length ∧
     bufSlice (_insertNumberValue s bytes (.int o)).2.buff 0 o
        = bufSlice s.buff 0 o ∧
     bufSlice (_insertNumberValue s bytes (.int o)).2.buff (o + bytes.length)
        (s.length + bytes.length) = bufSlice s.buff o s.length ∧
     (_insertNumberValue s bytes (.int o)).2.writeOffset
        = s.writeOffset + bytes.length ∧
     (_insertNumberValue s bytes (.int o)).2.readOffset = s.readOffset) ∧
    ((insertBufferImpl s bytes (.int o)).1 = .ok () ∧
     (insertBufferImpl s bytes (.int o)).2.length = s.length + bytes.length ∧
     bufSlice (insertBufferImpl s bytes (.int o)).2.buff 0 o
        = bufSlice s.buff 0 o ∧
     bufSlice (insertBufferImpl s bytes (.int o)).2.buff (o + bytes.length)
        (s.length + bytes.length) = bufSlice s.buff o s.length ∧
     (insertBufferImpl s bytes (.int o)).2.writeOffset
        = s.writeOffset + bytes.length ∧
     (insertBufferImpl s bytes (.int o)).2.readOffset = s.readOffset) := by
  have hcapEI := ei_cap s bytes.length o
  have hlenEI : (ensureInsertable s bytes.length o).length
      = s.length + bytes.length := by
    rw [ei_length, if_neg (by omega)]
  have hslice1 : bufSlice (storeWrite (ensureInsertable s bytes.length o).buff o bytes) 0 o
      = bufSlice s.buff 0 o := by
    apply List.ext_getElem?
    intro t
    simp only [bufSlice_getElem?, Nat.sub_zero, Nat.zero_add]
    by_cases ht : t < o
    · rw [if_pos ht, if_pos ht]
      rw [storeWrite_getElem?_lt _ _ _ _ ht]
      exact ei_buff_getElem?_lt s bytes.length o t ht (by omega)
    · rw [if_neg ht, if_neg ht]
  have hslice2 : bufSlice (storeWrite (ensureInsertable s bytes.length o).buff o bytes)
      (o + bytes.length) (s.length + bytes.length) = bufSlice s.buff o s.length := by
    apply List.ext_getElem?
    intro t
    simp only [bufSlice_getElem?]
    have hsub : s.length + bytes.length - (o + bytes.length) = s.length - o := by omega
    rw [hsub]
    by_cases ht : t < s.length - o
    · rw [if_pos ht, if_pos ht]
      rw [storeWrite_getElem?_ge _ _ _ _ (by omega)]
      rw [ei_buff_getElem?_shift s bytes.length o (o + bytes.length + t)
          (by omega) (by omega) (by omega)]
      rw [show o + bytes.length + t - bytes.length = o + t by omega]
      exact ec_buff_getElem? s (s.length + bytes.length) (o + t) (by omega)
    · rw [if_neg ht, if_neg ht]
  constructor
  · simp only [_insertNumberValue, Int.toNat_natCast]
    rw [if_neg (by omega), if_pos (by omega)]
    refine ⟨rfl, ?_, hslice1, hslice2, ?_, ?_⟩
    · exact hlenEI
    · rw [ei_writeOffset]
    · rw [ei_readOffset]
  · simp only [insertBufferImpl, Int.toNat_natCast]
    rw [if_neg (by omega)]
    refine ⟨rfl, ?_, hslice1, hslice2, ?_, ?_⟩
    · exact hlenEI
    · rw [ei_writeOffset]
    · rw [ei_readOffset]

/-- C1 witness: inserting one byte at offset 1 of a 3-byte buffer. -/
theorem c1_insert_splice_witness :
    (1 + ([9] : List Nat).length ≤ (SB.fromBuffer [1, 2, 3]).length ∧
     (SB.fromBuffer [1, 2, 3]).length ≤ (SB.fromBuffer [1, 2, 3]).buff.length) ∧
    ((_insertNumberValue (SB.fromBuffer [1, 2, 3]) [9] (.int 1)).1 = .ok () ∧
     (_insertNumberValue (SB.fromBuffer [1, 2, 3]) [9] (.int 1)).2.length
        = (SB.fromBuffer [1, 2, 3]).length + ([9] : List Nat).length ∧
     bufSlice (_insertNumberValue (SB.fromBuffer [1, 2, 3]) [9] (.int 1)).2.buff 0 1
        = bufSlice (SB.fromBuffer [1, 2, 3]).buff 0 1 ∧
     bufSlice (_insertNumberValue (SB.fromBuffer [1, 2, 3]) [9] (.int 1)).2.buff
        (1 + ([9] : List Nat).length)
        ((SB.fromBuffer [1, 2, 3]).length + ([9] : List Nat).length)
        = bufSlice (SB.fromBuffer [1, 2, 3]).buff 1 (SB.fromBuffer [1, 2, 3]).length ∧
     (_insertNumberValue (SB.fromBuffer [1, 2, 3]) [9] (.int 1)).2.writeOffset
        = (SB.fromBuffer [1, 2, 3]).writeOffset + ([9] : List Nat).length ∧
     (_insertNumberValue (SB.fromBuffer [1, 2, 3]) [9] (.int 1)).2.readOffset
        = (SB.fromBuffer [1, 2, 3]).readOffset) :=
  ⟨⟨by decide, by decide⟩,
   (c1_insert_splice (SB.fromBuffer [1, 2, 3]) [9] 1 (by decide) (by decide)).1⟩

/-! ## Claim C10: inserts beyond the live end -/

/-- C10 (counterexample): the insert at `o > length` is *not* always
accepted: on a 2-byte store, `insertUInt8` at offset 10 grows the store only
for `length + 1 = 3` bytes (to capacity 4), so the underlying
`Buffer.writeUInt8(value, 10)` throws a `RangeError` — after `length` has
already been set to `o + k = 11`. -/
theorem c10_insert_beyond_cex :
    (_insertNumberValue (SB.fromBuffer [0, 0]) [5] (.int 10)).1
        = .error .rangeError ∧
    (_insertNumberValue (SB.fromBuffer [0, 0]) [5] (.int 10)).2.length = 11 := by
  decide

/-- C10 (amended): an insert of `k` bytes at `o > length` passes validation
(only `checkOffsetValue` runs, there is no `o ≤ length` check) and always
sets `length = o + k`; the store write then succeeds exactly when `o + k`
fits the capacity ensured for `length + k`, the gap bytes `[length, o)`
are left as the untouched slack of the post-growth store, and on success the
write cursor advances by `k`. -/
theorem c10_insert_beyond (s : SB) (bytes : List Nat) (o : Nat)
    (h : s.length < o) :
    (_insertNumberValue s bytes (.int o)).2.length = o + bytes.length ∧
    ((_insertNumberValue s bytes (.int o)).1 = .ok () ↔
      o + bytes.length ≤ (_ensureCapacity s (s.length + bytes.length)).buff.length) ∧
    (∀ i, s.length ≤ i → i < o →
      (_insertNumberValue s bytes (.int o)).2.buff[i]? =
        (_ensureCapacity s (s.length + bytes.length)).buff[i]?) ∧
    ((_insertNumberValue s bytes (.int o)).1 = .ok () →
      (_insertNumberValue s bytes (.int o)).2.writeOffset
        = s.writeOffset + bytes.length) := by
  have hbge := ei_buff_ge s bytes.length o (by omega)
  have hblen : (ensureInsertable s bytes.length o).buff.length
      = (_ensureCapacity s (s.length + bytes.length)).buff.length := by
    rw [hbge]
  have hlen : (ensureInsertable s bytes.length o).length = o + bytes.length := by
    rw [ei_length, if_pos (by omega)]
  simp only [_insertNumberValue, Int.toNat_natCast]
  rw [if_neg (by omega)]
  split
  · refine ⟨hlen, ?_, ?_, ?_⟩
    · simp only [true_iff]
      omega
    · intro i hi1 hi2
      rw [storeWrite_getElem?_lt _ _ _ _ hi2, hbge]
    · intro _
      rw [ei_writeOffset]
  · refine ⟨hlen, ?_, ?_, ?_⟩
    · constructor
      · intro hcontra
        exact absurd hcontra (by simp)
      · intro hcap
        exact absurd (by omega : ¬ o + bytes.length ≤
          (ensureInsertable s bytes.length o).buff.length) (by omega)
    · intro i hi1 hi2
      rw [hbge]
    · intro hcontra
      exact absurd hcontra (by simp)

/-- C10 witness: inserting one byte at offset 3 of a 2-byte store (the
growth to capacity 4 happens to cover it): accepted, `length = 4`, the gap
byte at index 2 is the slack of the grown store. -/
theorem c10_insert_beyond_witness :
    (SB.fromBuffer [1, 2]).length < 3 ∧
    (_insertNumberValue (SB.fromBuffer [1, 2]) [5] (.int 3)).2.length
        = 3 + ([5] : List Nat).length ∧
    (_insertNumberValue (SB.fromBuffer [1, 2]) [5] (.int 3)).2.buff[2]? =
      (_ensureCapacity (SB.fromBuffer [1, 2])
        ((SB.fromBuffer [1, 2]).length + ([5] : List Nat).length)).buff[2]? :=
  ⟨by decide,
   (c10_insert_beyond (SB.fromBuffer [1, 2]) [5] 3 (by decide)).1,
   (c10_insert_beyond (SB.fromBuffer [1, 2]) [5] 3 (by decide)).2.2.1 2
     (by decide) (by decide)⟩

/-! ## Claim C4: fixed-width round trips -/

/-- C4: for every fixed-width shape (8/16/32/64-bit signed and unsigned
integers in either byte order; the 32/64-bit float shapes are the unsigned
shapes of the same width transporting the IEEE-754 bit pattern) and every
representable value, the relative write followed by the relative read at the
position just written (read cursor standing where the write cursor was)
returns exactly the value, and both calls succeed. -/
theorem c4_roundtrip (sh : NumShape) (v : Int) (s : SB)
    (hw : 1 ≤ sh.width) (hr : sh.inRange v) (hpos : s.readOffset = s.writeOffset) :
    (writeShape sh v s).1 = .ok () ∧
    (readShape sh (writeShape sh v s).2).1 = .ok v ∧
    (readShape sh (writeShape sh v s).2).2.readOffset = s.readOffset + sh.width := by
  have hk := encode_length sh v
  have hcap := ew_cap s (sh.encode v).length s.writeOffset
  simp only [writeShape, _writeNumberValue]
  rw [if_pos hcap]
  simp only [readShape, _readNumberValue, ew_readOffset, ew_length]
  rw [if_neg (by rw [hpos, hk]; omega)]
  simp only []
  refine ⟨trivial, ?_, trivial⟩
  rw [hpos, ← hk, bufSlice_storeWrite_self _ _ _ hcap, decode_encode sh v hw hr]

/-- C4 witness: the unsigned 16-bit little-endian shape at its maximum value
`0xffff`, on an empty zero-capacity buffer. -/
theorem c4_roundtrip_witness :
    (1 ≤ (⟨2, false, .le⟩ : NumShape).width ∧
     (⟨2, false, .le⟩ : NumShape).inRange 65535 ∧
     (SB.fromBuffer []).readOffset = (SB.fromBuffer []).writeOffset) ∧
    ((writeShape ⟨2, false, .le⟩ 65535 (SB.fromBuffer [])).1 = .ok () ∧
     (readShape ⟨2, false, .le⟩
        (writeShape ⟨2, false, .le⟩ 65535 (SB.fromBuffer [])).2).1 = .ok 65535 ∧
     (readShape ⟨2, false, .le⟩
        (writeShape ⟨2, false, .le⟩ 65535 (SB.fromBuffer [])).2).2.readOffset
        = (SB.fromBuffer []).readOffset + (⟨2, false, .le⟩ : NumShape).width) :=
  ⟨⟨by decide, by decide, by decide⟩,
   c4_roundtrip ⟨2, false, .le⟩ 65535 (SB.fromBuffer []) (by decide) (by decide)
     (by decide)⟩

/-! ## Claim C8: clamped byte-run reads -/

/-- The live view agrees with the physical store on in-bounds slices. -/
theorem bufSlice_toBuffer (s : SB) (i j : Nat) (hj : j ≤ s.length)
    (hl : s.length ≤ s.buff.length) :
    bufSlice s.toBuffer i j = bufSlice s.buff i j := by
  apply List.ext_getElem?
  intro t
  rw [bufSlice_getElem?, bufSlice_getElem?]
  by_cases ht : t < j - i
  · rw [if_pos ht, if_pos ht]
    unfold SB.toBuffer
    rw [bufSlice_getElem?, if_pos (by omega), show 0 + (i + t) = i + t by omega]
  · rw [if_neg ht, if_neg ht]

/-- C8 (counterexample): the claim quantifies over *every* buffer state, but
after a terminator-less `readStringNT` the cursor stands at `length + 1`;
`readBuffer(0)` then returns zero bytes yet moves `readOffset` *backwards*
(from 2 to `min(length, readOffset) = 1`), so the cursor does not advance by
the number of bytes returned. -/
theorem c8_read_clamp_cex :
    (readStringNTImpl (SB.fromBuffer [0x61])).2.readOffset = 2 ∧
    (readBufferImpl (readStringNTImpl (SB.fromBuffer [0x61])).2 (some (.int 0))).1
        = .ok [] ∧
    (readBufferImpl (readStringNTImpl (SB.fromBuffer [0x61])).2 (some (.int 0))).2.readOffset
        = 1 ∧
    ¬ ((readBufferImpl (readStringNTImpl (SB.fromBuffer [0x61])).2 (some (.int 0))).2.readOffset
        = (readStringNTImpl (SB.fromBuffer [0x61])).2.readOffset + 0) := by
  decide

/-- C8 (amended): on states satisfying the cursor invariant
(`readOffset ≤ length ≤ C`), `readBuffer(n)` returns exactly the live bytes
from `readOffset` to `min(readOffset + n, length)` and advances `readOffset`
by the number of bytes returned, never past `length`; `readString` with a
numeric length reads `min(n, remaining)` bytes, and with the length omitted
reads all remaining bytes, leaving `readOffset = length`. -/
theorem c8_read_clamp (s : SB) (n : Nat) (h1 : s.readOffset ≤ s.length)
    (h2 : s.length ≤ s.buff.length) :
    (readBufferImpl s (some (.int n))).1 =
        .ok (bufSlice s.toBuffer s.readOffset (min (s.readOffset + n) s.length)) ∧
    (readBufferImpl s (some (.int n))).2.readOffset
        = min (s.readOffset + n) s.length ∧
    (readBufferImpl s (some (.int n))).2.readOffset ≤ s.length ∧
    (readBufferImpl s (some (.int n))).2.readOffset
        = s.readOffset +
          (bufSlice s.toBuffer s.readOffset (min (s.readOffset + n) s.length)).length ∧
    (readStringImpl s (some (.int n))).1 =
        .ok (bufSlice s.buff s.readOffset
              (s.readOffset + min n (s.length - s.readOffset))) ∧
    (readStringImpl s (some (.int n))).2.readOffset
        = s.readOffset + min n (s.length - s.readOffset) ∧
    (readStringImpl s none).1 = .ok (bufSlice s.buff s.readOffset s.length) ∧
    (readStringImpl s none).2.readOffset = s.length := by
  have htb : s.toBuffer.length = s.length := by
    unfold SB.toBuffer
    rw [bufSlice_length]
    omega
  have hslice := bufSlice_toBuffer s s.readOffset (min (s.readOffset + n) s.length)
    (by omega) h2
  have hbl := bufSlice_length s.toBuffer s.readOffset (min (s.readOffset + n) s.length)
  refine ⟨?_, ?_, ?_, ?_, ?_, ?_, ?_, ?_⟩
  · simp only [readBufferImpl, Int.toNat_natCast]
    rw [if_neg (by omega), hslice, Nat.min_comm]
  · simp only [readBufferImpl, Int.toNat_natCast]
    rw [if_neg (by omega)]
    simp only []
    omega
  · simp only [readBufferImpl, Int.toNat_natCast]
    rw [if_neg (by omega)]
    simp only []
    omega
  · simp only [readBufferImpl, Int.toNat_natCast]
    rw [if_neg (by omega)]
    simp only []
    omega
  · simp only [readStringImpl, SB.remaining, Int.toNat_natCast]
    rw [if_neg (by omega)]
    rw [show (((s.readOffset : Int)) + min (n : Int)
        ((s.length : Int) - (s.readOffset : Int))).toNat
        = s.readOffset + min n (s.length - s.readOffset) from by omega]
  · simp only [readStringImpl, SB.remaining, Int.toNat_natCast]
    rw [if_neg (by omega)]
    simp only []
    omega
  · simp only [readStringImpl, SB.remaining]
    rw [show (((s.readOffset : Int)) + ((s.length : Int) - (s.readOffset : Int))).toNat
        = s.length from by omega]
  · simp only [readStringImpl, SB.remaining]
    omega

/-- C8 witness: reading 5 bytes from a 3-byte buffer clamps to the 3
remaining bytes. -/
theorem c8_read_clamp_witness :
    ((SB.fromBuffer [1, 2, 3]).readOffset ≤ (SB.fromBuffer [1, 2, 3]).length ∧
     (SB.fromBuffer [1, 2, 3]).length ≤ (SB.fromBuffer [1, 2, 3]).buff.length) ∧
    (readBufferImpl (SB.fromBuffer [1, 2, 3]) (some (.int 5))).1 =
        .ok (bufSlice (SB.fromBuffer [1, 2, 3]).toBuffer
              (SB.fromBuffer [1, 2, 3]).readOffset
              (min ((SB.fromBuffer [1, 2, 3]).readOffset + 5)
                (SB.fromBuffer [1, 2, 3]).length)) ∧
    (readBufferImpl (SB.fromBuffer [1, 2, 3]) (some (.int 5))).2.readOffset
        = min ((SB.fromBuffer [1, 2, 3]).readOffset + 5)
            (SB.fromBuffer [1, 2, 3]).length :=
  ⟨⟨by decide, by decide⟩,
   (c8_read_clamp (SB.fromBuffer [1, 2, 3]) 5 (by decide) (by decide)).1,
   (c8_read_clamp (SB.fromBuffer [1, 2, 3]) 5 (by decide) (by decide)).2.1⟩

/-! ## Claim C7: failing operations perform no partial mutation -/

/-- C7 (counterexample): `writeBuffer` with the negative explicit offset
`-1` on an empty buffer throws (`value.copy` rejects a negative target
offset) — but `_ensureWriteable` has already run: `length` has become
`(-1) + 2 = 1`, a partial mutation surviving the failed call. -/
theorem c7_error_atomicity_cex :
    (writeBufferImpl (SB.fromBuffer []) [1, 2] (some (-1))).1
        = .error .rangeError ∧
    (writeBufferImpl (SB.fromBuffer []) [1, 2] (some (-1))).2.length = 1 ∧
    ¬ ((writeBufferImpl (SB.fromBuffer []) [1, 2] (some (-1))).2
        = SB.fromBuffer []) := by
  decide

/-- C7 (amended): the operations that validate eagerly — reads, numeric
writes, inserts, cursor setters, string writes with a bad encoding — fail
with the specific error and leave the state exactly as before the call; but
`writeBuffer`/`writeString` given a negative explicit offset fail only at
the store write, after the logical `length` has already been updated by
`_ensureWriteable`. -/
theorem c7_error_atomicity :
    (∀ (s : SB) (k : Nat), s.readOffset + k > s.length →
      _readNumberValue s k none = (.error .readBeyondBounds, s)) ∧
    (∀ (s : SB) (k : Nat) (n : Int), 0 ≤ n → n.toNat + k > s.length →
      _readNumberValue s k (some (.int n)) = (.error .readBeyondBounds, s)) ∧
    (∀ (s : SB) (bytes : List Nat) (n : Int), n < 0 →
      _writeNumberValue s bytes (some (.int n)) = (.error .writeBeyondBounds, s)) ∧
    (∀ (s : SB) (bytes : List Nat),
      _writeNumberValue s bytes (some .frac) = (.error .invalidOffset, s)) ∧
    (∀ (s : SB) (bytes : List Nat) (n : Int), n < 0 →
      _insertNumberValue s bytes (.int n) = (.error .invalidOffset, s)) ∧
    (∀ (s : SB) (v : List Nat) (n : Int), n < 0 →
      insertBufferImpl s v (.int n) = (.error .invalidOffset, s)) ∧
    (∀ (s : SB) (n : Int), n < 0 →
      setReadOffsetImpl s (.int n) = (.error .invalidOffset, s)) ∧
    (∀ (s : SB) (n : Int), 0 ≤ n → n.toNat > s.length →
      setReadOffsetImpl s (.int n) = (.error .invalidTargetOffset, s)) ∧
    (∀ (s : SB) (bytes : List Nat) (off : Option Int) (e : String),
      checkEncoding e = some .invalidEncoding →
      writeStringImpl s bytes off (some e) = (.error .invalidEncoding, s)) ∧
    (∀ (s : SB) (v : List Nat) (n : Int), n < 0 →
      (writeBufferImpl s v (some n)).1 = .error .rangeError ∧
      (writeBufferImpl s v (some n)).2.length =
        (if n + (v.length : Int) > (s.length : Int)
         then (n + (v.length : Int)).toNat else s.length)) := by
  refine ⟨?_, ?_, ?_, ?_, ?_, ?_, ?_, ?_, ?_, ?_⟩
  · intro s k h
    simp only [_readNumberValue]
    rw [if_pos h]
  · intro s k n h0 h
    simp only [_readNumberValue]
    rw [if_neg (by omega), if_pos h]
  · intro s bytes n h
    simp only [_writeNumberValue]
    rw [if_pos h]
  · intro s bytes
    simp only [_writeNumberValue]
  · intro s bytes n h
    simp only [_insertNumberValue]
    rw [if_pos h]
  · intro s v n h
    simp only [insertBufferImpl]
    rw [if_pos h]
  · intro s n h
    simp only [setReadOffsetImpl]
    rw [if_pos h]
  · intro s n h0 h
    simp only [setReadOffsetImpl]
    rw [if_neg (by omega), if_pos h]
  · intro s bytes off e he
    simp only [writeStringImpl, he]
  · intro s v n h
    simp only [writeBufferImpl, Option.getD_some]
    rw [if_pos h]
    refine ⟨rfl, ?_⟩
    simp only [ec_length]

/-- C7 witness: the amended statement at concrete inputs — a negative-offset
numeric write rejected with no mutation, and a negative-offset `writeBuffer`
failing with `length` already bumped to 1. -/
theorem c7_error_atomicity_witness :
    ((-1 : Int) < 0 ∧
      _writeNumberValue (SB.fromBuffer [3]) [9] (some (.int (-1)))
        = (.error .writeBeyondBounds, SB.fromBuffer [3])) ∧
    ((-1 : Int) < 0 ∧
      (writeBufferImpl (SB.fromBuffer []) [1, 2] (some (-1))).1
          = .error .rangeError ∧
      (writeBufferImpl (SB.fromBuffer []) [1, 2] (some (-1))).2.length =
        (if (-1 : Int) + (([1, 2] : List Nat).length : Int)
            > ((SB.fromBuffer []).length : Int)
         then ((-1 : Int) + (([1, 2] : List Nat).length : Int)).toNat
         else (SB.fromBuffer []).length)) :=
  ⟨⟨by decide, c7_error_atomicity.2.2.1 (SB.fromBuffer [3]) [9] (-1) (by decide)⟩,
   ⟨by decide,
    c7_error_atomicity.2.2.2.2.2.2.2.2.2 (SB.fromBuffer []) [1, 2] (-1) (by decide)⟩⟩

/-! ## Claim C2: the cursor invariant, operation by operation -/

theorem findNull_found (buff : List Nat) (fuel : Nat) :
    ∀ start, (∃ i, start ≤ i ∧ i < start + fuel ∧ buff.getD i 1 = 0) →
      findNull buff fuel start < start + fuel := by
  induction fuel with
  | zero =>
      intro start h
      obtain ⟨i, h1, h2, _⟩ := h
      omega
  | succ fuel ih =>
      intro start h
      simp only [findNull]
      split
      · omega
      · obtain ⟨i, h1, h2, h3⟩ := h
        have hi : start + 1 ≤ i := by
          rcases Nat.eq_or_lt_of_le h1 with he | hlt
          · exfalso
            rw [← he] at h3
            simp_all
          · omega
        have := ih (start + 1) ⟨i, hi, by omega, h3⟩
        omega

theorem inv_readNum (s : SB) (k : Nat) (off : Option JSNum) (h : Inv s) :
    Inv (_readNumberValue s k off).2 := by
  unfold Inv at *
  match off with
  | none =>
      simp only [_readNumberValue]
      split
      · exact h
      · exact ⟨show s.readOffset + k ≤ s.length by omega, h.2⟩
  | some (.int n) =>
      simp only [_readNumberValue]
      split
      · exact h
      · split <;> exact h
  | some .frac => exact h
  | some .infinite => exact h
  | some .nan => exact h

theorem inv_writeNum (s : SB) (bytes : List Nat) (off : Option JSNum) (h : Inv s) :
    Inv (_writeNumberValue s bytes off).2 := by
  unfold Inv at *
  match off with
  | none =>
      have h1 := ew_readOffset s bytes.length s.writeOffset
      have h2 := ew_writeOffset s bytes.length s.writeOffset
      have h3 := ew_length s bytes.length s.writeOffset
      simp only [_writeNumberValue]
      split <;>
        · dsimp only
          constructor <;> omega
  | some (.int n) =>
      have h1 := ew_readOffset s bytes.length n.toNat
      have h2 := ew_writeOffset s bytes.length n.toNat
      have h3 := ew_length s bytes.length n.toNat
      simp only [_writeNumberValue]
      split
      · exact h
      · split <;>
          · dsimp only
            constructor <;> omega
  | some .frac => exact h
  | some .infinite => exact h
  | some .nan => exact h

theorem inv_insertNum_int (s : SB) (bytes : List Nat) (n : Int) (h : Inv s)
    (hok : 0 ≤ n → insOkCond s bytes.length n.toNat) :
    Inv (_insertNumberValue s bytes (.int n)).2 := by
  unfold Inv at *
  unfold insOkCond at hok
  simp only [_insertNumberValue]
  split
  · exact h
  · have hok' := hok (by omega)
    split <;>
      · dsimp only
        constructor <;>
          · simp only [ei_readOffset, ei_writeOffset, ei_length]
            first
              | omega
              | (split <;> omega)

theorem inv_insertBuffer_int (s : SB) (value : List Nat) (n : Int) (h : Inv s)
    (hok : 0 ≤ n → insOkCond s value.length n.toNat) :
    Inv (insertBufferImpl s value (.int n)).2 := by
  unfold Inv at *
  unfold insOkCond at hok
  simp only [insertBufferImpl]
  split
  · exact h
  · have hok' := hok (by omega)
    dsimp only
    constructor <;>
      · simp only [ei_readOffset, ei_writeOffset, ei_length]
        first
          | omega
          | (split <;> omega)

theorem inv_readBuffer (s : SB) (len : Option JSNum) (h : Inv s) :
    Inv (readBufferImpl s len).2 := by
  unfold Inv at *
  match len with
  | none =>
      simp only [readBufferImpl]
      exact ⟨show min s.length (s.readOffset + s.length) ≤ s.length by omega, h.2⟩
  | some (.int n) =>
      simp only [readBufferImpl]
      split
      · exact h
      · exact ⟨show min s.length (s.readOffset + n.toNat) ≤ s.length by omega, h.2⟩
  | some .frac => exact h
  | some .infinite => exact h
  | some .nan => exact h

theorem inv_readString (s : SB) (len : Option JSNum) (h : Inv s) :
    Inv (readStringImpl s len).2 := by
  unfold Inv at *
  match len with
  | none =>
      simp only [readStringImpl, SB.remaining]
      exact ⟨show (((s.readOffset : Int)) +
        ((s.length : Int) - (s.readOffset : Int))).toNat ≤ s.length by omega, h.2⟩
  | some (.int n) =>
      simp only [readStringImpl, SB.remaining]
      split
      · exact h
      · refine ⟨?_, h.2⟩
        show (((s.readOffset : Int)) +
          min (n : Int) ((s.length : Int) - (s.readOffset : Int))).toNat ≤ s.length
        omega
  | some .frac => exact h
  | some .infinite => exact h
  | some .nan => exact h

theorem inv_readNT (s : SB) (h : Inv s)
    (hex : ∃ i, s.readOffset ≤ i ∧ i < s.length ∧ s.buff.getD i 1 = 0) :
    Inv (readBufferNTImpl s).2 := by
  unfold Inv at *
  have hfound : findNull s.buff (s.length - s.readOffset) s.readOffset
      < s.readOffset + (s.length - s.readOffset) := by
    apply findNull_found
    obtain ⟨i, h1, h2, h3⟩ := hex
    exact ⟨i, h1, by omega, h3⟩
  simp only [readBufferNTImpl, nullPosOf]
  exact ⟨show min (findNull s.buff (s.length - s.readOffset) s.readOffset) s.length + 1
    ≤ s.length by omega, h.2⟩

theorem inv_writeBuffer (s : SB) (value : List Nat) (off : Option Int) (h : Inv s) :
    Inv (writeBufferImpl s value off).2 := by
  unfold Inv at *
  cases off with
  | none =>
      have h1 := ec_readOffset s ((s.writeOffset : Int) + value.length).toNat
      have h2 := ec_writeOffset s ((s.writeOffset : Int) + value.length).toNat
      have h3 := ec_length s ((s.writeOffset : Int) + value.length).toNat
      simp only [writeBufferImpl, Option.getD_none]
      rw [if_neg (by omega)]
      dsimp only
      constructor <;> (first | omega | (split <;> omega))
  | some o0 =>
      have h1 := ec_readOffset s (o0 + value.length).toNat
      have h2 := ec_writeOffset s (o0 + value.length).toNat
      have h3 := ec_length s (o0 + value.length).toNat
      simp only [writeBufferImpl, Option.getD_some]
      split <;>
        · dsimp only
          constructor <;> (first | omega | (split <;> omega))

theorem inv_writeString (s : SB) (bytes : List Nat) (off : Option Int)
    (enc : Option String) (h : Inv s) : Inv (writeStringImpl s bytes off enc).2 := by
  match enc with
  | none => exact inv_writeBuffer s bytes off h
  | some e =>
      simp only [writeStringImpl]
      match he : checkEncoding e with
      | some err => exact h
      | none => exact inv_writeBuffer s bytes off h

theorem inv_insertString_int (s : SB) (bytes : List Nat) (n : Int)
    (enc : Option String) (h : Inv s)
    (hok : 0 ≤ n → insOkCond s bytes.length n.toNat) :
    Inv (insertStringImpl s bytes (.int n) enc).2 := by
  unfold Inv at *
  unfold insOkCond at hok
  cases enc with
  | none =>
      simp only [insertStringImpl]
      split
      · exact h
      · have hok' := hok (by omega)
        split <;>
          · constructor <;>
              · simp only [ei_readOffset, ei_writeOffset, ei_length]
                first
                  | omega
                  | (split <;> omega)
  | some e =>
      simp only [insertStringImpl]
      rcases he : checkEncoding e with _ | err
      · simp only [he]
        split
        · exact h
        · have hok' := hok (by omega)
          split <;>
            · constructor <;>
                · simp only [ei_readOffset, ei_writeOffset, ei_length]
                  first
                    | omega
                    | (split <;> omega)
      · simp only [he]
        split
        · exact h
        · exact h

theorem inv_setRead (s : SB) (v : JSNum) (h : Inv s) :
    Inv (setReadOffsetImpl s v).2 := by
  unfold Inv at *
  match v with
  | .int n =>
      simp only [setReadOffsetImpl]
      split
      · exact h
      · split
        · exact h
        · exact ⟨show n.toNat ≤ s.length by omega, h.2⟩
  | .frac => exact h
  | .infinite => exact h
  | .nan => exact h

theorem inv_setWrite (s : SB) (v : JSNum) (h : Inv s) :
    Inv (setWriteOffsetImpl s v).2 := by
  unfold Inv at *
  match v with
  | .int n =>
      simp only [setWriteOffsetImpl]
      split
      · exact h
      · split
        · exact h
        · exact ⟨h.1, show n.toNat ≤ s.length by omega⟩
  | .frac => exact h
  | .infinite => exact h
  | .nan => exact h

theorem inv_writeBufferNT (s : SB) (value : List Nat) (off : Option JSNum)
    (h : Inv s) : Inv (writeBufferNTImpl s value off).2 := by
  match off with
  | some (.int n) =>
      simp only [writeBufferNTImpl]
      split
      · exact h
      · rcases hwb : writeBufferImpl s value (some (n.toNat : Int)) with ⟨r, s1⟩
        have hs1 : Inv s1 := by
          have hi := inv_writeBuffer s value (some (n.toNat : Int)) h
          rw [hwb] at hi
          exact hi
        cases r with
        | error e =>
            simp only [hwb]
            exact hs1
        | ok u =>
            simp only [hwb]
            exact inv_writeNum s1 [0] (some (.int (n + value.length))) hs1
  | some .frac => exact h
  | some .infinite => exact h
  | some .nan => exact h
  | none =>
      simp only [writeBufferNTImpl]
      rcases hwb : writeBufferImpl s value none with ⟨r, s1⟩
      have hs1 : Inv s1 := by
        have hi := inv_writeBuffer s value none h
        rw [hwb] at hi
        exact hi
      cases r with
      | error e =>
          simp only [hwb]
          exact hs1
      | ok u =>
          simp only [hwb]
          exact inv_writeNum s1 [0] (some (.int s1.writeOffset)) hs1

theorem inv_insertBufNT_int (s : SB) (value : List Nat) (n : Int) (h : Inv s)
    (hok : 0 ≤ n → insOkCond s value.length n.toNat) :
    Inv (insertBufferNTImpl s value (.int n)).2 := by
  simp only [insertBufferNTImpl]
  split
  · exact h
  · rename_i hn
    rcases hib : insertBufferImpl s value (.int n) with ⟨r, s1⟩
    have hs1 : Inv s1 := by
      have hi := inv_insertBuffer_int s value n h hok
      rw [hib] at hi
      exact hi
    cases r with
    | error e =>
        simp only [hib]
        exact hs1
    | ok u =>
        simp only [hib]
        have hdef : insertBufferImpl s value (.int n) =
            (.ok (), { ensureInsertable s value.length n.toNat with
              buff := storeWrite (ensureInsertable s value.length n.toNat).buff
                        n.toNat value,
              writeOffset := (ensureInsertable s value.length n.toNat).writeOffset
                        + value.length }) := by
          simp only [insertBufferImpl]
          rw [if_neg hn]
        rw [hib] at hdef
        injection hdef with hfst hsnd
        subst hsnd
        refine inv_insertNum_int _ [0] (n + value.length) hs1 ?_
        intro _
        have hok' := hok (by omega)
        obtain ⟨hr1, hw1⟩ := h
        unfold insOkCond at *
        simp only [ei_length, ei_writeOffset, List.length_singleton]
        split <;> omega

/-- C2 (counterexample): `readStringNT` on live bytes `[0x61]` (no zero
byte anywhere) sets `readOffset = length + 1 = 2`, breaking the invariant
`readOffset ≤ length`. -/
theorem c2_cursor_invariant_cex :
    Inv (SB.fromBuffer [0x61]) ∧
    (runOp .readStrNT (SB.fromBuffer [0x61])).readOffset
        = (SB.fromBuffer [0x61]).length + 1 ∧
    ¬ Inv (runOp .readStrNT (SB.fromBuffer [0x61])) := by
  decide

/-- C2 (amended): on a state satisfying `0 ≤ readOffset ≤ length` and
`0 ≤ writeOffset ≤ length`, every public operation preserves the invariant,
*except* that (a) `readStringNT`/`readBufferNT` need a zero byte in the
unread region — otherwise `readOffset` becomes `length + 1` — and (b) an
insert of `k` bytes at offset `o` must satisfy `o + k ≤ length` or
`writeOffset ≤ o` — otherwise the write cursor can end past the new
length. -/
theorem c2_cursor_invariant (op : Op) (s : SB) (h : Inv s) (hok : opOk op s) :
    Inv (runOp op s) := by
  cases op with
  | readNum k off => exact inv_readNum s k off h
  | writeNum bytes off => exact inv_writeNum s bytes off h
  | insertNum bytes off =>
      cases off with
      | int n => exact inv_insertNum_int s bytes n h hok
      | frac => exact h
      | infinite => exact h
      | nan => exact h
  | readBuf len => exact inv_readBuffer s len h
  | readStr len => exact inv_readString s len h
  | readBufNT => exact inv_readNT s h hok
  | readStrNT => exact inv_readNT s h hok
  | writeBuf value off => exact inv_writeBuffer s value off h
  | insertBuf value off =>
      cases off with
      | int n => exact inv_insertBuffer_int s value n h hok
      | frac => exact h
      | infinite => exact h
      | nan => exact h
  | writeStr bytes off enc => exact inv_writeString s bytes off enc h
  | insertStr bytes off enc =>
      cases off with
      | int n => exact inv_insertString_int s bytes n enc h hok
      | frac => exact h
      | infinite => exact h
      | nan => exact h
  | writeBufNT value off => exact inv_writeBufferNT s value off h
  | insertBufNT value off =>
      cases off with
      | int n => exact inv_insertBufNT_int s value n h hok
      | frac => exact h
      | infinite => exact h
      | nan => exact h
  | setRead v => exact inv_setRead s v h
  | setWrite v => exact inv_setWrite s v h
  | clearOp => exact ⟨Nat.le_refl 0, Nat.le_refl 0⟩

/-- C2 witness: `readStringNT` on `[0x00, 0x07]` (terminator present at
index 0) preserves the invariant. -/
theorem c2_cursor_invariant_witness :
    (Inv (SB.fromBuffer [0x00, 0x07]) ∧ opOk .readStrNT (SB.fromBuffer [0x00, 0x07])) ∧
    Inv (runOp .readStrNT (SB.fromBuffer [0x00, 0x07])) :=
  ⟨⟨by decide, ⟨0, by decide, by decide, by decide⟩⟩,
   c2_cursor_invariant .readStrNT (SB.fromBuffer [0x00, 0x07]) (by decide)
     ⟨0, by decide, by decide, by decide⟩⟩

end SmartBufferSpec
